import Mathlib

/-!
Verification of a terrain-surface library consisting of a spectral terrain
synthesizer (terrainGenerator.py) and a bilinear surface sampler with
extrema and volume analytics (makeFunction.py).

The sampler side (makeFunction.py) is pure rational arithmetic, so it is
embedded over the exact rationals: clamping, fractional grid indices,
floor, index clipping, bilinear blending, the row-major extremum scan and
the Riemann-sum volume are translated function by function.  numpy integer
indexing (including its single negative wrap and its IndexError on
out-of-range indices) is modelled by an Option-valued lookup; a zero cell
size, which in floating point produces a nan fractional index and then an
invalid integer cast followed by an IndexError, is modelled as a failure
of the sampling operation.

The synthesizer side (terrainGenerator.py) involves fftfreq, square roots,
random phases, a complex spectrum and an inverse 2D DFT, so it is embedded
over the real and complex numbers, parameterized by the pseudorandom
stream: the process-wide numpy generator is modelled by an explicit stream
of draws threaded through the call, and seeding is modelled by a function
from seeds to streams.  Python failures (ZeroDivisionError inside fftfreq
for a zero size, ValueError for a negative size) are modelled with Except.
-/

/-! ## Generic minimum / maximum of a nonempty list (numpy min and max) -/

/-- Minimum of a list with default value d on the empty list; on a
nonempty list this is the reduction numpy performs for min (a left fold of
the binary minimum over the remaining elements starting from the head). -/
def listMinD {α : Type} [LinearOrder α] (d : α) : List α → α
  | [] => d
  | x :: xs => xs.foldl min x

/-- Maximum of a list with default value d on the empty list. -/
def listMaxD {α : Type} [LinearOrder α] (d : α) : List α → α
  | [] => d
  | x :: xs => xs.foldl max x

theorem foldl_min_le_init {α : Type} [LinearOrder α] :
    ∀ (xs : List α) (x : α), xs.foldl min x ≤ x := by
  intro xs
  induction xs with
  | nil => intro x; exact le_refl x
  | cons y ys ih =>
    intro x
    calc (y :: ys).foldl min x = ys.foldl min (min x y) := rfl
    _ ≤ min x y := ih (min x y)
    _ ≤ x := min_le_left x y

theorem foldl_min_le_mem {α : Type} [LinearOrder α] :
    ∀ (xs : List α) (x v : α), v ∈ xs → xs.foldl min x ≤ v := by
  intro xs
  induction xs with
  | nil => intro x v hv; exact absurd hv (List.not_mem_nil v)
  | cons y ys ih =>
    intro x v hv
    rcases List.mem_cons.mp hv with h | h
    · subst h
      calc (v :: ys).foldl min x = ys.foldl min (min x v) := rfl
      _ ≤ min x v := foldl_min_le_init ys (min x v)
      _ ≤ v := min_le_right x v
    · exact ih (min x y) v h

theorem foldl_min_mem {α : Type} [LinearOrder α] :
    ∀ (xs : List α) (x : α), xs.foldl min x = x ∨ xs.foldl min x ∈ xs := by
  intro xs
  induction xs with
  | nil => intro x; exact Or.inl rfl
  | cons y ys ih =>
    intro x
    rcases ih (min x y) with h | h
    · rcases min_choice x y with hxy | hxy
      · exact Or.inl (by rw [List.foldl_cons, h, hxy])
      · exact Or.inr (by rw [List.foldl_cons, h, hxy]; exact List.mem_cons_self y ys)
    · exact Or.inr (List.mem_cons_of_mem y h)

theorem foldl_max_le_init {α : Type} [LinearOrder α] :
    ∀ (xs : List α) (x : α), x ≤ xs.foldl max x := by
  intro xs
  induction xs with
  | nil => intro x; exact le_refl x
  | cons y ys ih =>
    intro x
    calc x ≤ max x y := le_max_left x y
    _ ≤ ys.foldl max (max x y) := ih (max x y)
    _ = (y :: ys).foldl max x := rfl

theorem foldl_max_le_mem {α : Type} [LinearOrder α] :
    ∀ (xs : List α) (x v : α), v ∈ xs → v ≤ xs.foldl max x := by
  intro xs
  induction xs with
  | nil => intro x v hv; exact absurd hv (List.not_mem_nil v)
  | cons y ys ih =>
    intro x v hv
    rcases List.mem_cons.mp hv with h | h
    · subst h
      calc v ≤ max x v := le_max_right x v
      _ ≤ ys.foldl max (max x v) := foldl_max_le_init ys (max x v)
      _ = (v :: ys).foldl max x := rfl
    · exact ih (max x y) v h

theorem foldl_max_mem {α : Type} [LinearOrder α] :
    ∀ (xs : List α) (x : α), xs.foldl max x = x ∨ xs.foldl max x ∈ xs := by
  intro xs
  induction xs with
  | nil => intro x; exact Or.inl rfl
  | cons y ys ih =>
    intro x
    rcases ih (max x y) with h | h
    · rcases max_choice x y with hxy | hxy
      · exact Or.inl (by rw [List.foldl_cons, h, hxy])
      · exact Or.inr (by rw [List.foldl_cons, h, hxy]; exact List.mem_cons_self y ys)
    · exact Or.inr (List.mem_cons_of_mem y h)

theorem listMinD_le {α : Type} [LinearOrder α] (d : α) (l : List α) (v : α)
    (hv : v ∈ l) : listMinD d l ≤ v := by
  cases l with
  | nil => exact absurd hv (List.not_mem_nil v)
  | cons x xs =>
    rcases List.mem_cons.mp hv with h | h
    · subst h; exact foldl_min_le_init xs v
    · exact foldl_min_le_mem xs x v h

theorem listMinD_mem {α : Type} [LinearOrder α] (d : α) (l : List α)
    (h : l ≠ []) : listMinD d l ∈ l := by
  cases l with
  | nil => exact absurd rfl h
  | cons x xs =>
    rcases foldl_min_mem xs x with h2 | h2
    · rw [listMinD, h2]; exact List.mem_cons_self x xs
    · exact List.mem_cons_of_mem x (by rw [listMinD]; exact h2)

theorem le_listMaxD {α : Type} [LinearOrder α] (d : α) (l : List α) (v : α)
    (hv : v ∈ l) : v ≤ listMaxD d l := by
  cases l with
  | nil => exact absurd hv (List.not_mem_nil v)
  | cons x xs =>
    rcases List.mem_cons.mp hv with h | h
    · subst h; exact foldl_max_le_init xs v
    · exact foldl_max_le_mem xs x v h

theorem listMaxD_mem {α : Type} [LinearOrder α] (d : α) (l : List α)
    (h : l ≠ []) : listMaxD d l ∈ l := by
  cases l with
  | nil => exact absurd rfl h
  | cons x xs =>
    rcases foldl_max_mem xs x with h2 | h2
    · rw [listMaxD, h2]; exact List.mem_cons_self x xs
    · exact List.mem_cons_of_mem x (by rw [listMaxD]; exact h2)

/-! ## numpy primitives over the rationals -/

/-- numpy clip of a scalar: the minimum of the upper bound with the
maximum of the value and the lower bound. -/
def npClip (x lo hi : ℚ) : ℚ := min (max x lo) hi

/-- numpy integer indexing along one axis: a nonnegative index must be
below the length, a negative index wraps once by adding the length;
anything else is an IndexError, modelled as none. -/
def npGet1 {α : Type} (l : List α) (i : ℤ) : Option α :=
  if 0 ≤ i then (if i < (l.length : ℤ) then l.get? i.toNat else none)
  else (if -(l.length : ℤ) ≤ i then l.get? (i + (l.length : ℤ)).toNat else none)

/-- Two-axis numpy integer indexing into a matrix stored as a list of
rows. -/
def npGet2 (m : List (List ℚ)) (r c : ℤ) : Option ℚ :=
  (npGet1 m r).bind (fun row => npGet1 row c)

/-- numpy linspace with the endpoint included: n equally spaced samples
from a to b; a single sample is just a, and in exact arithmetic the i-th
sample is a + i (b - a) / (n - 1). -/
def linspace (a b : ℚ) (n : ℕ) : List ℚ :=
  (List.range n).map (fun (i : ℕ) => if n = 1 then a else a + (i : ℚ) * (b - a) / ((n : ℚ) - 1))

/-! ## makeFunction.py: the bilinear sampler -/

/-- Cell size of an axis whose grid runs from g0 to gl over n samples:
the code divides the grid span by n - 1 when n exceeds one and uses the
degenerate value 1.0 otherwise. -/
def cell_size (g0 gl : ℚ) (n : ℕ) : ℚ :=
  if 1 < n then (gl - g0) / ((n : ℚ) - 1) else 1

/-- Fractional grid index of a query coordinate: clamp to the grid span,
subtract the left end and divide by the cell size. -/
def frac_index (g0 gl : ℚ) (n : ℕ) (v : ℚ) : ℚ :=
  (npClip v g0 gl - g0) / cell_size g0 gl n

/-- Lower (left or bottom) grid index: the floor of the fractional
index.  The code does not clip this one. -/
def low_index (g0 gl : ℚ) (n : ℕ) (v : ℚ) : ℤ :=
  ⌊frac_index g0 gl n v⌋

/-- Upper (right or top) grid index: the lower index plus one, clipped
into the valid index range. -/
def high_index (g0 gl : ℚ) (n : ℕ) (v : ℚ) : ℤ :=
  min (max (low_index g0 gl n v + 1) 0) ((n : ℤ) - 1)

/-- Fractional offset inside the cell: fractional index minus the lower
index. -/
def frac_off (g0 gl : ℚ) (n : ℕ) (v : ℚ) : ℚ :=
  frac_index g0 gl n v - (low_index g0 gl n v : ℚ)

/-- The blending order used by the source: interpolate along x at the
bottom and top rows first, then blend the two intermediate values along
y. -/
def blend_x_then_y (zbl zbr ztl ztr fx fy : ℚ) : ℚ :=
  (1 - fy) * ((1 - fx) * zbl + fx * zbr) + fy * ((1 - fx) * ztl + fx * ztr)

/-- Modelled from the spec: the opposite blending order, interpolating
along y within each column first and then along x, stated by the spec to
agree with the order the source uses. -/
def blend_y_then_x (zbl zbr ztl ztr fx fy : ℚ) : ℚ :=
  (1 - fx) * ((1 - fy) * zbl + fy * ztl) + fx * ((1 - fy) * zbr + fy * ztr)

/-- Bilinear interpolation of the matrix at the query point, following
the source step by step: read the grid ends (IndexError on an empty
grid), clamp, build fractional indices, floor, clip the upper indices,
fetch the four corners and blend along x then y.  A zero cell size makes
the float division produce nan, whose integer cast yields an invalid
index and an IndexError; this failure is modelled as none. -/
def bilinear_interp (matrix : List (List ℚ)) (x y : ℚ)
    (x_grid y_grid : List ℚ) : Option ℚ :=
  match x_grid.head?, x_grid.getLast?, y_grid.head?, y_grid.getLast? with
  | some xg0, some xgl, some yg0, some ygl =>
    if cell_size xg0 xgl x_grid.length = 0 ∨ cell_size yg0 ygl y_grid.length = 0 then
      none
    else
      match npGet2 matrix (low_index yg0 ygl y_grid.length y) (low_index xg0 xgl x_grid.length x),
            npGet2 matrix (low_index yg0 ygl y_grid.length y) (high_index xg0 xgl x_grid.length x),
            npGet2 matrix (high_index yg0 ygl y_grid.length y) (low_index xg0 xgl x_grid.length x),
            npGet2 matrix (high_index yg0 ygl y_grid.length y) (high_index xg0 xgl x_grid.length x) with
      | some zbl, some zbr, some ztl, some ztr =>
          some (blend_x_then_y zbl zbr ztl ztr
            (frac_off xg0 xgl x_grid.length x) (frac_off yg0 ygl y_grid.length y))
      | _, _, _, _ => none
  | _, _, _, _ => none

/-- generateFunction builds the two linspace grids from the extents and
the matrix shape and returns the closure sampling the surface; this is
that closure applied to a query point. -/
def generateFunction_sample (matrix : List (List ℚ)) (x_extent y_extent : ℚ × ℚ)
    (x y : ℚ) : Option ℚ :=
  bilinear_interp matrix x y
    (linspace x_extent.1 x_extent.2 (matrix.headD []).length)
    (linspace y_extent.1 y_extent.2 matrix.length)

/-- find_extrema: row-major argmin and argmax over the flattened grid
samples (numpy argmin and argmax return the first occurrence of the
extreme value in C order), unraveled to row and column indices, the
values read back from the matrix and the physical coordinates read from
the linspace grids.  An empty matrix makes numpy argmin raise, modelled
as none. -/
def find_extrema (matrix : List (List ℚ)) (x_extent y_extent : ℚ × ℚ) :
    Option ((ℚ × ℚ × ℚ) × (ℚ × ℚ × ℚ)) :=
  let H := matrix.length
  let W := (matrix.headD []).length
  let flat := matrix.flatten
  if flat = [] then none
  else
    let mn := listMinD 0 flat
    let mx := listMaxD 0 flat
    let kmin := flat.indexOf mn
    let kmax := flat.indexOf mx
    let x_grid := linspace x_extent.1 x_extent.2 W
    let y_grid := linspace y_extent.1 y_extent.2 H
    some (((matrix.getD (kmin / W) []).getD (kmin % W) 0,
            x_grid.getD (kmin % W) 0, y_grid.getD (kmin / W) 0),
          ((matrix.getD (kmax / W) []).getD (kmax % W) 0,
            x_grid.getD (kmax % W) 0, y_grid.getD (kmax / W) 0))

/-- volume_under_surface: subtract the baseline from every cell, clip
negative cells to zero when positive_only is set, then multiply the total
by the cell area. -/
def volume_under_surface (matrix : List (List ℚ)) (x_extent y_extent : ℚ × ℚ)
    (baseline : ℚ) (positive_only : Bool) : ℚ :=
  let H := matrix.length
  let W := (matrix.headD []).length
  let dx := cell_size x_extent.1 x_extent.2 W
  let dy := cell_size y_extent.1 y_extent.2 H
  let z := matrix.map (fun row => row.map (fun v => v - baseline))
  let z2 := if positive_only then z.map (fun row => row.map (fun v => max v 0)) else z
  ((z2.map List.sum).sum) * dx * dy

/-! ## Grid lemmas -/

/-- Last entry of a linspace grid of n samples: the left end for a single
sample, the right end otherwise. -/
def gridLast (a b : ℚ) (n : ℕ) : ℚ := if n = 1 then a else b

theorem linspace_length (a b : ℚ) (n : ℕ) : (linspace a b n).length = n := by
  simp [linspace]

theorem linspace_head? (a b : ℚ) (n : ℕ) (hn : 1 ≤ n) :
    (linspace a b n).head? = some a := by
  cases n with
  | zero => omega
  | succ m =>
    rw [linspace, List.range_succ_eq_map]
    simp only [List.map_cons, List.head?_cons]
    congr 1
    split
    · rfl
    · push_cast; ring

theorem linspace_getLast? (a b : ℚ) (n : ℕ) (hn : 1 ≤ n) :
    (linspace a b n).getLast? = some (gridLast a b n) := by
  cases n with
  | zero => omega
  | succ m =>
    rw [linspace, List.range_succ, List.map_append, List.map_singleton,
      List.getLast?_concat, gridLast]
    congr 1
    rcases Nat.eq_zero_or_pos m with hm | hm
    · subst hm; norm_num
    · have hne : m + 1 ≠ 1 := by omega
      simp only [hne, if_false]
      have : ((m : ℚ) + 1) - 1 = (m : ℚ) := by ring
      push_cast
      rw [this]
      have hm0 : (m : ℚ) ≠ 0 := by exact_mod_cast Nat.pos_iff_ne_zero.mp hm
      field_simp

theorem linspace_getD (a b : ℚ) (n c : ℕ) (hc : c < n) :
    (linspace a b n).getD c 0 =
      if n = 1 then a else a + (c : ℚ) * (b - a) / ((n : ℚ) - 1) := by
  rw [linspace, List.getD_eq_getElem?_getD, List.getElem?_map]
  rw [List.getElem?_range hc]
  rfl

/-! ## Clamping and axis index lemmas -/

theorem npClip_of_mem (x lo hi : ℚ) (h1 : lo ≤ x) (h2 : x ≤ hi) :
    npClip x lo hi = x := by
  unfold npClip
  rw [max_eq_left h1, min_eq_left h2]

theorem npClip_le_of_le (x lo hi : ℚ) (hx : x ≤ lo) :
    npClip x lo hi = npClip lo lo hi := by
  unfold npClip
  rw [max_eq_right hx, max_self]

theorem npClip_ge_of_ge (x lo hi : ℚ) (hx : hi ≤ x) :
    npClip x lo hi = npClip hi lo hi := by
  unfold npClip
  rw [min_eq_right (le_max_of_le_left hx), min_eq_right (le_max_left hi lo)]

theorem npClip_mem (x lo hi : ℚ) (h : lo ≤ hi) :
    lo ≤ npClip x lo hi ∧ npClip x lo hi ≤ hi := by
  unfold npClip
  exact ⟨le_min (le_max_right x lo) h, min_le_right (max x lo) hi⟩

theorem cell_size_ne_zero (a b : ℚ) (n : ℕ) (h1 : 1 ≤ n) (hnd : n = 1 ∨ a < b) :
    cell_size a (gridLast a b n) n ≠ 0 := by
  by_cases hn1 : n = 1
  · subst hn1
    simp [cell_size]
  · have hab : a < b := hnd.resolve_left hn1
    have h2 : 1 < n := by omega
    have hd : (0 : ℚ) < (n : ℚ) - 1 := by
      have : (1 : ℚ) < (n : ℚ) := by exact_mod_cast h2
      linarith
    have : cell_size a (gridLast a b n) n = (b - a) / ((n : ℚ) - 1) := by
      rw [cell_size, gridLast, if_pos h2, if_neg hn1]
    rw [this]
    exact ne_of_gt (div_pos (by linarith) hd)

theorem frac_index_bounds (a b x : ℚ) (n : ℕ) (h1 : 1 ≤ n) (hab : a ≤ b)
    (hnd : n = 1 ∨ a < b) :
    0 ≤ frac_index a (gridLast a b n) n x ∧
      frac_index a (gridLast a b n) n x ≤ (n : ℚ) - 1 := by
  by_cases hn1 : n = 1
  · subst hn1
    have hcl : npClip x a (gridLast a b 1) = a := by
      rw [gridLast, if_pos rfl]
      unfold npClip
      rw [min_eq_right (le_max_right x a)]
    rw [frac_index, hcl]
    norm_num [cell_size]
  · have hab : a < b := hnd.resolve_left hn1
    have h2 : 1 < n := by omega
    have hgl : gridLast a b n = b := by rw [gridLast, if_neg hn1]
    have hd : (0 : ℚ) < (n : ℚ) - 1 := by
      have : (1 : ℚ) < (n : ℚ) := by exact_mod_cast h2
      linarith
    have hcs : cell_size a (gridLast a b n) n = (b - a) / ((n : ℚ) - 1) := by
      rw [cell_size, hgl, if_pos h2]
    have hcpos : 0 < (b - a) / ((n : ℚ) - 1) := div_pos (by linarith) hd
    have hmem := npClip_mem x a b hab.le
    rw [frac_index, hcs, hgl]
    constructor
    · apply div_nonneg _ hcpos.le
      linarith [hmem.1]
    · rw [div_le_iff₀ hcpos]
      have : ((n : ℚ) - 1) * ((b - a) / ((n : ℚ) - 1)) = b - a := by
        field_simp
      rw [this]
      linarith [hmem.2]

theorem low_index_bounds (a b x : ℚ) (n : ℕ) (h1 : 1 ≤ n) (hab : a ≤ b)
    (hnd : n = 1 ∨ a < b) :
    0 ≤ low_index a (gridLast a b n) n x ∧
      low_index a (gridLast a b n) n x ≤ (n : ℤ) - 1 := by
  obtain ⟨hlo, hhi⟩ := frac_index_bounds a b x n h1 hab hnd
  constructor
  · exact_mod_cast Int.floor_nonneg.mpr hlo
  · rw [low_index]
    have : ((n : ℚ) - 1) = (((n : ℤ) - 1 : ℤ) : ℚ) := by push_cast; ring
    rw [this] at hhi
    calc ⌊frac_index a (gridLast a b n) n x⌋ ≤ ⌊(((n : ℤ) - 1 : ℤ) : ℚ)⌋ :=
          Int.floor_le_floor hhi
    _ = (n : ℤ) - 1 := Int.floor_intCast _

theorem high_index_bounds (a b x : ℚ) (n : ℕ) (h1 : 1 ≤ n) :
    0 ≤ high_index a (gridLast a b n) n x ∧
      high_index a (gridLast a b n) n x ≤ (n : ℤ) - 1 := by
  rw [high_index]
  constructor
  · apply le_min (le_max_right _ 0)
    omega
  · exact min_le_right _ _

theorem frac_off_mem (g0 gl x : ℚ) (n : ℕ) :
    0 ≤ frac_off g0 gl n x ∧ frac_off g0 gl n x < 1 := by
  have : frac_off g0 gl n x = Int.fract (frac_index g0 gl n x) := by
    rw [frac_off, low_index, Int.fract]
  rw [this]
  exact ⟨Int.fract_nonneg _, Int.fract_lt_one _⟩

/-! ## numpy indexing lemmas -/

theorem npGet1_mem {α : Type} (l : List α) (i : ℤ) (a : α)
    (h : npGet1 l i = some a) : a ∈ l := by
  unfold npGet1 at h
  split at h
  · split at h
    · exact List.get?_mem h
    · cases h
  · split at h
    · exact List.get?_mem h
    · cases h

theorem npGet1_eq_get? {α : Type} (l : List α) (i : ℤ) (h0 : 0 ≤ i)
    (hl : i < (l.length : ℤ)) : npGet1 l i = l.get? i.toNat := by
  unfold npGet1
  rw [if_pos h0, if_pos hl]

theorem npGet2_mem (m : List (List ℚ)) (r c : ℤ) (z : ℚ)
    (h : npGet2 m r c = some z) : z ∈ m.flatten := by
  rw [npGet2] at h
  rcases Option.bind_eq_some.mp h with ⟨row, hrow, hz⟩
  exact List.mem_flatten.mpr ⟨row, npGet1_mem m r row hrow, npGet1_mem row c z hz⟩

theorem npGet2_eq_some (m : List (List ℚ)) (W : ℕ)
    (rect : ∀ row ∈ m, row.length = W) (j i : ℤ) (h0j : 0 ≤ j)
    (hj : j < (m.length : ℤ)) (h0i : 0 ≤ i) (hi : i < (W : ℤ)) :
    ∃ z, npGet2 m j i = some z := by
  have hjn : j.toNat < m.length := by omega
  have hrow : m.get? j.toNat = some (m.get ⟨j.toNat, hjn⟩) := List.get?_eq_get hjn
  have hrmem : m.get ⟨j.toNat, hjn⟩ ∈ m := List.get_mem m j.toNat hjn
  have hrlen : (m.get ⟨j.toNat, hjn⟩).length = W := rect _ hrmem
  have hin : i.toNat < (m.get ⟨j.toNat, hjn⟩).length := by omega
  have hcell : (m.get ⟨j.toNat, hjn⟩).get? i.toNat =
      some ((m.get ⟨j.toNat, hjn⟩).get ⟨i.toNat, hin⟩) := List.get?_eq_get hin
  refine ⟨(m.get ⟨j.toNat, hjn⟩).get ⟨i.toNat, hin⟩, ?_⟩
  rw [npGet2, npGet1_eq_get? m j h0j hj, hrow]
  simp only [Option.some_bind]
  rw [npGet1_eq_get? _ i h0i (by omega), hcell]

/-! ## Evaluation and inversion of the sampler -/

theorem bilinear_interp_eq (matrix : List (List ℚ)) (x y : ℚ)
    (x_grid y_grid : List ℚ) (xg0 xgl yg0 ygl zbl zbr ztl ztr : ℚ)
    (hxh : x_grid.head? = some xg0) (hxl : x_grid.getLast? = some xgl)
    (hyh : y_grid.head? = some yg0) (hyl : y_grid.getLast? = some ygl)
    (hcx : cell_size xg0 xgl x_grid.length ≠ 0)
    (hcy : cell_size yg0 ygl y_grid.length ≠ 0)
    (hbl : npGet2 matrix (low_index yg0 ygl y_grid.length y)
      (low_index xg0 xgl x_grid.length x) = some zbl)
    (hbr : npGet2 matrix (low_index yg0 ygl y_grid.length y)
      (high_index xg0 xgl x_grid.length x) = some zbr)
    (htl : npGet2 matrix (high_index yg0 ygl y_grid.length y)
      (low_index xg0 xgl x_grid.length x) = some ztl)
    (htr : npGet2 matrix (high_index yg0 ygl y_grid.length y)
      (high_index xg0 xgl x_grid.length x) = some ztr) :
    bilinear_interp matrix x y x_grid y_grid =
      some (blend_x_then_y zbl zbr ztl ztr (frac_off xg0 xgl x_grid.length x)
        (frac_off yg0 ygl y_grid.length y)) := by
  rw [bilinear_interp, hxh, hxl, hyh, hyl]
  dsimp only
  rw [if_neg (by push_neg; exact ⟨hcx, hcy⟩)]
  rw [hbl, hbr, htl, htr]

theorem bilinear_interp_some_inv (matrix : List (List ℚ)) (x y : ℚ)
    (x_grid y_grid : List ℚ) (v : ℚ)
    (h : bilinear_interp matrix x y x_grid y_grid = some v) :
    ∃ xg0 xgl yg0 ygl zbl zbr ztl ztr,
      x_grid.head? = some xg0 ∧ x_grid.getLast? = some xgl ∧
      y_grid.head? = some yg0 ∧ y_grid.getLast? = some ygl ∧
      npGet2 matrix (low_index yg0 ygl y_grid.length y)
        (low_index xg0 xgl x_grid.length x) = some zbl ∧
      npGet2 matrix (low_index yg0 ygl y_grid.length y)
        (high_index xg0 xgl x_grid.length x) = some zbr ∧
      npGet2 matrix (high_index yg0 ygl y_grid.length y)
        (low_index xg0 xgl x_grid.length x) = some ztl ∧
      npGet2 matrix (high_index yg0 ygl y_grid.length y)
        (high_index xg0 xgl x_grid.length x) = some ztr ∧
      v = blend_x_then_y zbl zbr ztl ztr (frac_off xg0 xgl x_grid.length x)
        (frac_off yg0 ygl y_grid.length y) := by
  rw [bilinear_interp] at h
  split at h
  case _ xg0 xgl yg0 ygl hxh hxl hyh hyl =>
    split at h
    · cases h
    · split at h
      case _ zbl zbr ztl ztr hbl hbr htl htr =>
        exact ⟨xg0, xgl, yg0, ygl, zbl, zbr, ztl, ztr, hxh, hxl, hyh, hyl,
          hbl, hbr, htl, htr, (Option.some_inj.mp h).symm⟩
      case _ =>
        cases h
  case _ =>
    cases h

theorem npClip_const (v a : ℚ) : npClip v a a = a := by
  unfold npClip
  exact min_eq_right (le_max_right v a)

theorem sample_congr_x (matrix : List (List ℚ)) (x0 x1 y0 y1 x x2 y : ℚ)
    (hH : 1 ≤ matrix.length) (hW : 1 ≤ (matrix.headD []).length)
    (hclip : npClip x x0 (gridLast x0 x1 (matrix.headD []).length) =
      npClip x2 x0 (gridLast x0 x1 (matrix.headD []).length)) :
    generateFunction_sample matrix (x0, x1) (y0, y1) x y =
      generateFunction_sample matrix (x0, x1) (y0, y1) x2 y := by
  set W := (matrix.headD []).length with hWdef
  set H := matrix.length with hHdef
  have hfi : ∀ n : ℕ, frac_index x0 (gridLast x0 x1 W) n x =
      frac_index x0 (gridLast x0 x1 W) n x2 := by
    intro n
    rw [frac_index, frac_index, hclip]
  have hlo : ∀ n : ℕ, low_index x0 (gridLast x0 x1 W) n x =
      low_index x0 (gridLast x0 x1 W) n x2 := by
    intro n
    rw [low_index, low_index, hfi n]
  have hhi : ∀ n : ℕ, high_index x0 (gridLast x0 x1 W) n x =
      high_index x0 (gridLast x0 x1 W) n x2 := by
    intro n
    rw [high_index, high_index, hlo n]
  have hfo : ∀ n : ℕ, frac_off x0 (gridLast x0 x1 W) n x =
      frac_off x0 (gridLast x0 x1 W) n x2 := by
    intro n
    rw [frac_off, frac_off, hfi n, hlo n]
  rw [generateFunction_sample, generateFunction_sample]
  rw [bilinear_interp, bilinear_interp]
  rw [linspace_head? x0 x1 W hW, linspace_getLast? x0 x1 W hW]
  rw [linspace_head? y0 y1 H hH, linspace_getLast? y0 y1 H hH]
  dsimp only
  rw [linspace_length x0 x1 W, hlo, hhi, hfo]

theorem sample_congr_y (matrix : List (List ℚ)) (x0 x1 y0 y1 x y y2 : ℚ)
    (hH : 1 ≤ matrix.length) (hW : 1 ≤ (matrix.headD []).length)
    (hclip : npClip y y0 (gridLast y0 y1 matrix.length) =
      npClip y2 y0 (gridLast y0 y1 matrix.length)) :
    generateFunction_sample matrix (x0, x1) (y0, y1) x y =
      generateFunction_sample matrix (x0, x1) (y0, y1) x y2 := by
  set W := (matrix.headD []).length with hWdef
  set H := matrix.length with hHdef
  have hfi : ∀ n : ℕ, frac_index y0 (gridLast y0 y1 H) n y =
      frac_index y0 (gridLast y0 y1 H) n y2 := by
    intro n
    rw [frac_index, frac_index, hclip]
  have hlo : ∀ n : ℕ, low_index y0 (gridLast y0 y1 H) n y =
      low_index y0 (gridLast y0 y1 H) n y2 := by
    intro n
    rw [low_index, low_index, hfi n]
  have hhi : ∀ n : ℕ, high_index y0 (gridLast y0 y1 H) n y =
      high_index y0 (gridLast y0 y1 H) n y2 := by
    intro n
    rw [high_index, high_index, hlo n]
  have hfo : ∀ n : ℕ, frac_off y0 (gridLast y0 y1 H) n y =
      frac_off y0 (gridLast y0 y1 H) n y2 := by
    intro n
    rw [frac_off, frac_off, hfi n, hlo n]
  rw [generateFunction_sample, generateFunction_sample]
  rw [bilinear_interp, bilinear_interp]
  rw [linspace_head? x0 x1 W hW, linspace_getLast? x0 x1 W hW]
  rw [linspace_head? y0 y1 H hH, linspace_getLast? y0 y1 H hH]
  dsimp only
  rw [linspace_length y0 y1 H, hlo, hhi, hfo]

theorem lerp_bounds (t a b lo hi : ℚ) (ht0 : 0 ≤ t) (ht1 : t ≤ 1)
    (ha1 : lo ≤ a) (ha2 : a ≤ hi) (hb1 : lo ≤ b) (hb2 : b ≤ hi) :
    lo ≤ (1 - t) * a + t * b ∧ (1 - t) * a + t * b ≤ hi := by
  constructor <;> nlinarith

/-- Claim C5: out-of-domain queries are clamped to the boundary: for any
surface, sampling at an x below xmin (resp. above xmax) gives the same
result as sampling at xmin (resp. xmax), and symmetrically in y. -/
theorem C5_boundary_clamping (matrix : List (List ℚ)) (x0 x1 y0 y1 x y : ℚ)
    (hH : 1 ≤ matrix.length) (hW : 1 ≤ (matrix.headD []).length) :
    (x ≤ x0 → generateFunction_sample matrix (x0, x1) (y0, y1) x y =
      generateFunction_sample matrix (x0, x1) (y0, y1) x0 y) ∧
    (x1 ≤ x → generateFunction_sample matrix (x0, x1) (y0, y1) x y =
      generateFunction_sample matrix (x0, x1) (y0, y1) x1 y) ∧
    (y ≤ y0 → generateFunction_sample matrix (x0, x1) (y0, y1) x y =
      generateFunction_sample matrix (x0, x1) (y0, y1) x y0) ∧
    (y1 ≤ y → generateFunction_sample matrix (x0, x1) (y0, y1) x y =
      generateFunction_sample matrix (x0, x1) (y0, y1) x y1) := by
  refine ⟨fun hx => ?_, fun hx => ?_, fun hy => ?_, fun hy => ?_⟩
  · exact sample_congr_x matrix x0 x1 y0 y1 x x0 y hH hW
      (npClip_le_of_le x x0 _ hx)
  · apply sample_congr_x matrix x0 x1 y0 y1 x x1 y hH hW
    by_cases h1 : (matrix.headD []).length = 1
    · rw [gridLast, if_pos h1, npClip_const, npClip_const]
    · rw [gridLast, if_neg h1]
      exact npClip_ge_of_ge x x0 x1 hx
  · exact sample_congr_y matrix x0 x1 y0 y1 x y y0 hH hW
      (npClip_le_of_le y y0 _ hy)
  · apply sample_congr_y matrix x0 x1 y0 y1 x y y1 hH hW
    by_cases h1 : matrix.length = 1
    · rw [gridLast, if_pos h1, npClip_const, npClip_const]
    · rw [gridLast, if_neg h1]
      exact npClip_ge_of_ge y y0 y1 hy

/-- Witness for C5 at a concrete surface: a 2 by 2 field over the unit
square, queried far outside the domain on each side. -/
theorem C5_witness :
    (1 ≤ [[(1 : ℚ), 2], [3, 4]].length) ∧
    (1 ≤ ([[(1 : ℚ), 2], [3, 4]].headD []).length) ∧
    ((-7 : ℚ) ≤ 0 →
      generateFunction_sample [[(1 : ℚ), 2], [3, 4]] (0, 1) (0, 1) (-7) (1/2) =
        generateFunction_sample [[(1 : ℚ), 2], [3, 4]] (0, 1) (0, 1) 0 (1/2)) := by
  refine ⟨by norm_num, by norm_num, fun hx => ?_⟩
  exact (C5_boundary_clamping [[(1 : ℚ), 2], [3, 4]] 0 1 0 1 (-7) (1/2)
    (by norm_num) (by norm_num)).1 hx

/-- Claim C6: for corner values and fractional offsets in the unit
interval, blending along x first and then y coincides with blending along
y first and then x. -/
theorem C6_blend_order_commutes (zbl zbr ztl ztr fx fy : ℚ)
    (hfx0 : 0 ≤ fx) (hfx1 : fx ≤ 1) (hfy0 : 0 ≤ fy) (hfy1 : fy ≤ 1) :
    blend_x_then_y zbl zbr ztl ztr fx fy = blend_y_then_x zbl zbr ztl ztr fx fy := by
  rw [blend_x_then_y, blend_y_then_x]
  ring

/-- Witness for C6 at concrete corners and offsets. -/
theorem C6_witness :
    (0 ≤ (1 : ℚ)/3) ∧ ((1 : ℚ)/3 ≤ 1) ∧ (0 ≤ (1 : ℚ)/4) ∧ ((1 : ℚ)/4 ≤ 1) ∧
    blend_x_then_y 1 2 3 4 (1/3) (1/4) = blend_y_then_x 1 2 3 4 (1/3) (1/4) := by
  refine ⟨by norm_num, by norm_num, by norm_num, by norm_num, ?_⟩
  exact C6_blend_order_commutes 1 2 3 4 (1/3) (1/4)
    (by norm_num) (by norm_num) (by norm_num) (by norm_num)

/-- Claim C10: whenever sampling succeeds, the interpolated value lies
between any lower bound and any upper bound of the field entries, because
the bilinear blend is a convex combination of four field values. -/
theorem C10_convex_bounds (matrix : List (List ℚ)) (x0 x1 y0 y1 x y lo hi v : ℚ)
    (hx01 : x0 ≤ x1) (hy01 : y0 ≤ y1)
    (hlo : ∀ w ∈ matrix.flatten, lo ≤ w) (hhi : ∀ w ∈ matrix.flatten, w ≤ hi)
    (hs : generateFunction_sample matrix (x0, x1) (y0, y1) x y = some v) :
    lo ≤ v ∧ v ≤ hi := by
  rw [generateFunction_sample] at hs
  obtain ⟨xg0, xgl, yg0, ygl, zbl, zbr, ztl, ztr, _, _, _, _, hbl, hbr, htl, htr, hv⟩ :=
    bilinear_interp_some_inv _ _ _ _ _ _ hs
  have mbl := npGet2_mem _ _ _ _ hbl
  have mbr := npGet2_mem _ _ _ _ hbr
  have mtl := npGet2_mem _ _ _ _ htl
  have mtr := npGet2_mem _ _ _ _ htr
  have f1 := frac_off_mem xg0 xgl x (linspace x0 x1 (matrix.headD []).length).length
  have f2 := frac_off_mem yg0 ygl y (linspace y0 y1 matrix.length).length
  subst hv
  rw [blend_x_then_y]
  have hA := lerp_bounds _ zbl zbr lo hi f1.1 f1.2.le
    (hlo zbl mbl) (hhi zbl mbl) (hlo zbr mbr) (hhi zbr mbr)
  have hB := lerp_bounds _ ztl ztr lo hi f1.1 f1.2.le
    (hlo ztl mtl) (hhi ztl mtl) (hlo ztr mtr) (hhi ztr mtr)
  exact lerp_bounds _ _ _ lo hi f2.1 f2.2.le hA.1 hA.2 hB.1 hB.2

/-- Witness for C10 at a concrete surface: the center sample of a 2 by 2
field lies between the smallest and the largest entry. -/
theorem C10_witness :
    ((0 : ℚ) ≤ 1) ∧
    (∀ w ∈ [[(1 : ℚ), 2], [3, 4]].flatten, 1 ≤ w) ∧
    (∀ w ∈ [[(1 : ℚ), 2], [3, 4]].flatten, w ≤ 4) ∧
    (generateFunction_sample [[(1 : ℚ), 2], [3, 4]] (0, 1) (0, 1) (1/2) (1/2) =
      some (5/2)) ∧
    (1 ≤ (5 : ℚ)/2 ∧ (5 : ℚ)/2 ≤ 4) := by
  have hmem1 : ∀ w ∈ [[(1 : ℚ), 2], [3, 4]].flatten, 1 ≤ w := by
    intro w hw
    have hw2 : w = 1 ∨ w = 2 ∨ w = 3 ∨ w = 4 := by simpa using hw
    rcases hw2 with h | h | h | h <;> rw [h] <;> norm_num
  have hmem2 : ∀ w ∈ [[(1 : ℚ), 2], [3, 4]].flatten, w ≤ 4 := by
    intro w hw
    have hw2 : w = 1 ∨ w = 2 ∨ w = 3 ∨ w = 4 := by simpa using hw
    rcases hw2 with h | h | h | h <;> rw [h] <;> norm_num
  have hs : generateFunction_sample [[(1 : ℚ), 2], [3, 4]] (0, 1) (0, 1) (1/2) (1/2) =
      some (5/2) := by
    norm_num [generateFunction_sample, bilinear_interp, linspace, List.range_succ, cell_size,
      frac_index, low_index, high_index, frac_off, npClip, npGet1, npGet2, blend_x_then_y]
  exact ⟨by norm_num, hmem1, hmem2, hs,
    C10_convex_bounds [[(1 : ℚ), 2], [3, 4]] 0 1 0 1 (1/2) (1/2) 1 4 (5/2)
      (by norm_num) (by norm_num) hmem1 hmem2 hs⟩

/-! ## Exactness at grid points -/

theorem frac_index_at_grid (a b : ℚ) (n c : ℕ) (hc : c < n)
    (hnd : n = 1 ∨ a < b) :
    frac_index a (gridLast a b n) n ((linspace a b n).getD c 0) = (c : ℚ) := by
  by_cases hn1 : n = 1
  · subst hn1
    have hc0 : c = 0 := by omega
    subst hc0
    rw [linspace_getD a b 1 0 (by norm_num), if_pos rfl, gridLast, if_pos rfl,
      frac_index, npClip_const]
    norm_num [cell_size]
  · have hab : a < b := hnd.resolve_left hn1
    have h2 : 1 < n := by omega
    have hgl : gridLast a b n = b := if_neg hn1
    have hd : (0 : ℚ) < (n : ℚ) - 1 := by
      have : (1 : ℚ) < (n : ℚ) := by exact_mod_cast h2
      linarith
    have hv : (linspace a b n).getD c 0 = a + (c : ℚ) * (b - a) / ((n : ℚ) - 1) := by
      rw [linspace_getD a b n c hc, if_neg hn1]
    have hcle : (c : ℚ) ≤ (n : ℚ) - 1 := by
      have : (c : ℚ) + 1 ≤ (n : ℚ) := by exact_mod_cast hc
      linarith
    have hvL : a ≤ a + (c : ℚ) * (b - a) / ((n : ℚ) - 1) := by
      have : 0 ≤ (c : ℚ) * (b - a) / ((n : ℚ) - 1) :=
        div_nonneg (mul_nonneg (Nat.cast_nonneg c) (by linarith)) hd.le
      linarith
    have hvU : a + (c : ℚ) * (b - a) / ((n : ℚ) - 1) ≤ b := by
      have h3 : (c : ℚ) * (b - a) / ((n : ℚ) - 1) ≤
          ((n : ℚ) - 1) * (b - a) / ((n : ℚ) - 1) := by
        gcongr
        linarith
      have h4 : ((n : ℚ) - 1) * (b - a) / ((n : ℚ) - 1) = b - a := by
        field_simp
      linarith [h3, h4.symm.le]
    rw [frac_index, hgl, hv]
    rw [npClip_of_mem _ _ _ hvL hvU]
    have hcs : cell_size a b n = (b - a) / ((n : ℚ) - 1) := by
      rw [cell_size, if_pos h2]
    rw [hcs, add_sub_cancel_left]
    have hba : b - a ≠ 0 := sub_ne_zero.mpr hab.ne'
    rw [div_div_div_eq]
    field_simp
    ring

theorem headD_length_eq (matrix : List (List ℚ)) (W : ℕ)
    (h1 : 1 ≤ matrix.length) (rect : ∀ row ∈ matrix, row.length = W) :
    (matrix.headD []).length = W := by
  cases matrix with
  | nil => simp at h1
  | cons row rest => exact rect row (List.mem_cons_self row rest)

/-- Claim C1 (amended): for extents whose bounds are strictly increasing
on every axis with more than one sample, sampling the surface exactly at
the grid point (x_grid[c], y_grid[r]) returns the stored entry
field[r][c]. -/
theorem C1_sample_exact_at_grid_points (matrix : List (List ℚ)) (H W r c : ℕ)
    (x0 x1 y0 y1 v : ℚ)
    (hH : matrix.length = H) (rect : ∀ row ∈ matrix, row.length = W)
    (h1 : 1 ≤ H) (h2 : 1 ≤ W) (hr : r < H) (hc : c < W)
    (hx : W = 1 ∨ x0 < x1) (hy : H = 1 ∨ y0 < y1)
    (hv : npGet2 matrix (r : ℤ) (c : ℤ) = some v) :
    generateFunction_sample matrix (x0, x1) (y0, y1)
      ((linspace x0 x1 W).getD c 0) ((linspace y0 y1 H).getD r 0) = some v := by
  have hWd : (matrix.headD []).length = W := headD_length_eq matrix W (by omega) rect
  have hfx := frac_index_at_grid x0 x1 W c hc hx
  have hfy := frac_index_at_grid y0 y1 H r hr hy
  have hlox : low_index x0 (gridLast x0 x1 W) W ((linspace x0 x1 W).getD c 0) = (c : ℤ) := by
    rw [low_index, hfx, Int.floor_natCast]
  have hloy : low_index y0 (gridLast y0 y1 H) H ((linspace y0 y1 H).getD r 0) = (r : ℤ) := by
    rw [low_index, hfy, Int.floor_natCast]
  have hfox : frac_off x0 (gridLast x0 x1 W) W ((linspace x0 x1 W).getD c 0) = 0 := by
    rw [frac_off, hfx, hlox]
    norm_num
  have hfoy : frac_off y0 (gridLast y0 y1 H) H ((linspace y0 y1 H).getD r 0) = 0 := by
    rw [frac_off, hfy, hloy]
    norm_num
  have hhx := high_index_bounds x0 x1 ((linspace x0 x1 W).getD c 0) W h2
  have hhy := high_index_bounds y0 y1 ((linspace y0 y1 H).getD r 0) H h1
  obtain ⟨zbr, hzbr⟩ := npGet2_eq_some matrix W rect (r : ℤ)
    (high_index x0 (gridLast x0 x1 W) W ((linspace x0 x1 W).getD c 0))
    (by positivity) (by rw [hH]; exact_mod_cast hr) hhx.1 (by omega)
  obtain ⟨ztl, hztl⟩ := npGet2_eq_some matrix W rect
    (high_index y0 (gridLast y0 y1 H) H ((linspace y0 y1 H).getD r 0)) (c : ℤ)
    hhy.1 (by rw [hH]; omega) (by positivity) (by exact_mod_cast hc)
  obtain ⟨ztr, hztr⟩ := npGet2_eq_some matrix W rect
    (high_index y0 (gridLast y0 y1 H) H ((linspace y0 y1 H).getD r 0))
    (high_index x0 (gridLast x0 x1 W) W ((linspace x0 x1 W).getD c 0))
    hhy.1 (by rw [hH]; omega) hhx.1 (by omega)
  rw [generateFunction_sample, hWd, hH]
  rw [bilinear_interp_eq matrix _ _ _ _ x0 (gridLast x0 x1 W) y0 (gridLast y0 y1 H)
    v zbr ztl ztr
    (by rw [linspace_head? x0 x1 W h2])
    (by rw [linspace_getLast? x0 x1 W h2])
    (by rw [linspace_head? y0 y1 H h1])
    (by rw [linspace_getLast? y0 y1 H h1])
    (by rw [linspace_length]; exact cell_size_ne_zero x0 x1 W h2 hx)
    (by rw [linspace_length]; exact cell_size_ne_zero y0 y1 H h1 hy)
    (by rw [linspace_length, linspace_length, hlox, hloy]; exact hv)
    (by rw [linspace_length, linspace_length, hloy]; exact hzbr)
    (by rw [linspace_length, linspace_length, hlox]; exact hztl)
    (by rw [linspace_length, linspace_length]; exact hztr)]
  rw [linspace_length, linspace_length, hfox, hfoy, blend_x_then_y]
  ring_nf

/-- Counterexample to claim C1 as stated, which quantifies over every
extents: with inverted x extents (xmin, xmax) = (1, 0) on a 1 by 2 field,
the clamp collapses every query to the right grid end, so sampling at the
grid point x_grid[0] = 1 returns the entry of column 1 instead of the
stored entry field[0][0]. -/
theorem C1_counterexample :
    (linspace (1 : ℚ) 0 2).getD 0 0 = 1 ∧
    (linspace (0 : ℚ) 1 1).getD 0 0 = 0 ∧
    npGet2 [[(1 : ℚ), 2]] 0 0 = some 1 ∧
    generateFunction_sample [[(1 : ℚ), 2]] (1, 0) (0, 1) 1 0 = some 2 ∧
    some (2 : ℚ) ≠ some 1 := by
  refine ⟨?_, ?_, ?_, ?_, by norm_num⟩ <;>
    norm_num [linspace, List.range_succ, npGet2, npGet1, generateFunction_sample,
      bilinear_interp, cell_size, frac_index, low_index, high_index, frac_off,
      npClip, blend_x_then_y]

/-- Witness for the amended C1 at a concrete surface: the grid point of
row 1, column 0 of a 2 by 2 field over the unit square returns the stored
entry 3. -/
theorem C1_witness :
    npGet2 [[(1 : ℚ), 2], [3, 4]] (1 : ℤ) (0 : ℤ) = some 3 ∧
    generateFunction_sample [[(1 : ℚ), 2], [3, 4]] (0, 1) (0, 1)
      ((linspace (0 : ℚ) 1 2).getD 0 0) ((linspace (0 : ℚ) 1 2).getD 1 0) = some 3 := by
  have hv : npGet2 [[(1 : ℚ), 2], [3, 4]] (1 : ℤ) (0 : ℤ) = some 3 := by
    norm_num [npGet2, npGet1]
  refine ⟨hv, ?_⟩
  exact C1_sample_exact_at_grid_points [[(1 : ℚ), 2], [3, 4]] 2 2 1 0 0 1 0 1 3
    rfl
    (by
      intro row hrow
      have h2 : row = [1, 2] ∨ row = [3, 4] := by simpa using hrow
      rcases h2 with h | h <;> rw [h] <;> rfl)
    (by norm_num) (by norm_num) (by norm_num) (by norm_num)
    (Or.inr (by norm_num)) (Or.inr (by norm_num)) hv

/-- Claim C9 (amended): with extents that are strictly increasing on
every axis having more than one sample, all four corner indices stay in
the valid index range, both cell sizes are nonzero (no division by zero),
and sampling succeeds. -/
theorem C9_indices_in_bounds (matrix : List (List ℚ)) (H W : ℕ)
    (x0 x1 y0 y1 x y : ℚ)
    (hH : matrix.length = H) (rect : ∀ row ∈ matrix, row.length = W)
    (h1 : 1 ≤ H) (h2 : 1 ≤ W) (hx01 : x0 ≤ x1) (hy01 : y0 ≤ y1)
    (hx : W = 1 ∨ x0 < x1) (hy : H = 1 ∨ y0 < y1) :
    cell_size x0 (gridLast x0 x1 W) W ≠ 0 ∧
    cell_size y0 (gridLast y0 y1 H) H ≠ 0 ∧
    (0 ≤ low_index x0 (gridLast x0 x1 W) W x ∧
      low_index x0 (gridLast x0 x1 W) W x ≤ (W : ℤ) - 1) ∧
    (0 ≤ high_index x0 (gridLast x0 x1 W) W x ∧
      high_index x0 (gridLast x0 x1 W) W x ≤ (W : ℤ) - 1) ∧
    (0 ≤ low_index y0 (gridLast y0 y1 H) H y ∧
      low_index y0 (gridLast y0 y1 H) H y ≤ (H : ℤ) - 1) ∧
    (0 ≤ high_index y0 (gridLast y0 y1 H) H y ∧
      high_index y0 (gridLast y0 y1 H) H y ≤ (H : ℤ) - 1) ∧
    ∃ v, generateFunction_sample matrix (x0, x1) (y0, y1) x y = some v := by
  have hWd : (matrix.headD []).length = W := headD_length_eq matrix W (by omega) rect
  have hlx := low_index_bounds x0 x1 x W h2 hx01 hx
  have hly := low_index_bounds y0 y1 y H h1 hy01 hy
  have hhx := high_index_bounds x0 x1 x W h2
  have hhy := high_index_bounds y0 y1 y H h1
  refine ⟨cell_size_ne_zero x0 x1 W h2 hx, cell_size_ne_zero y0 y1 H h1 hy,
    hlx, hhx, hly, hhy, ?_⟩
  obtain ⟨zbl, hzbl⟩ := npGet2_eq_some matrix W rect _ _
    hly.1 (by rw [hH]; omega) hlx.1 (by omega)
  obtain ⟨zbr, hzbr⟩ := npGet2_eq_some matrix W rect _ _
    hly.1 (by rw [hH]; omega) hhx.1 (by omega)
  obtain ⟨ztl, hztl⟩ := npGet2_eq_some matrix W rect _ _
    hhy.1 (by rw [hH]; omega) hlx.1 (by omega)
  obtain ⟨ztr, hztr⟩ := npGet2_eq_some matrix W rect _ _
    hhy.1 (by rw [hH]; omega) hhx.1 (by omega)
  have hmain := bilinear_interp_eq matrix x y
    (linspace x0 x1 W) (linspace y0 y1 H) x0 (gridLast x0 x1 W) y0 (gridLast y0 y1 H)
    zbl zbr ztl ztr
    (by rw [linspace_head? x0 x1 W h2])
    (by rw [linspace_getLast? x0 x1 W h2])
    (by rw [linspace_head? y0 y1 H h1])
    (by rw [linspace_getLast? y0 y1 H h1])
    (by rw [linspace_length]; exact cell_size_ne_zero x0 x1 W h2 hx)
    (by rw [linspace_length]; exact cell_size_ne_zero y0 y1 H h1 hy)
    (by rw [linspace_length, linspace_length]; exact hzbl)
    (by rw [linspace_length, linspace_length]; exact hzbr)
    (by rw [linspace_length, linspace_length]; exact hztl)
    (by rw [linspace_length, linspace_length]; exact hztr)
  rw [generateFunction_sample, hWd, hH]
  exact ⟨_, hmain⟩

/-- Counterexample to claim C9 as stated, which only requires min ≤ max
of the extents: with x extents (0, 0) and two x samples the cell size is
0, so converting a coordinate into a fractional index divides by zero (in
floating point a nan whose integer cast is invalid, crashing the
subsequent indexing: the sample fails rather than staying in bounds). -/
theorem C9_counterexample :
    cell_size (0 : ℚ) (gridLast 0 0 2) 2 = 0 ∧
    generateFunction_sample [[(1 : ℚ), 2]] (0, 0) (0, 1) 0 0 = none := by
  constructor
  · norm_num [cell_size, gridLast]
  · norm_num [generateFunction_sample, bilinear_interp, linspace, List.range_succ,
      cell_size, gridLast]

/-- Witness for the amended C9 at a concrete surface. -/
theorem C9_witness :
    ((0 : ℚ) < 1) ∧
    (0 ≤ low_index 0 (gridLast 0 1 2) 2 (1/3) ∧
      low_index 0 (gridLast 0 1 2) 2 (1/3) ≤ (2 : ℤ) - 1) ∧
    (∃ v, generateFunction_sample [[(1 : ℚ), 2], [3, 4]] (0, 1) (0, 1)
      (1/3) (2/3) = some v) := by
  have h := C9_indices_in_bounds [[(1 : ℚ), 2], [3, 4]] 2 2 0 1 0 1 (1/3) (2/3)
    rfl
    (by
      intro row hrow
      have h2 : row = [1, 2] ∨ row = [3, 4] := by simpa using hrow
      rcases h2 with h | h <;> rw [h] <;> rfl)
    (by norm_num) (by norm_num) (by norm_num) (by norm_num)
    (Or.inr (by norm_num)) (Or.inr (by norm_num))
  exact ⟨by norm_num, h.2.2.1, h.2.2.2.2.2.2⟩

/-! ## Volume analytics -/

theorem volume_demo_value :
    volume_under_surface (List.replicate 100 (List.replicate 120 ((1 : ℚ)/2)))
      (0, 10) (0, 8) 0 false = 480000 / 11781 := by
  have hhead : (List.replicate 100 (List.replicate 120 ((1 : ℚ)/2))).headD [] =
      List.replicate 120 ((1 : ℚ)/2) := by
    rw [show (100 : ℕ) = 99 + 1 from rfl, List.replicate_succ]
    rfl
  rw [volume_under_surface, hhead]
  norm_num [List.map_replicate, List.sum_replicate, cell_size, smul_eq_mul]

/-- Claim C2 (amended): with baseline 0 and positive clipping off, the
volume is the sum of all field entries times the cell area, with cell
sizes (max − min)/(count − 1) per axis; for the constant field of value
one half on a 100 by 120 grid over a 10 by 8 domain this equals
6000 · (10/119) · (8/99) = 480000/11781 ≈ 40.74, not 40.0. -/
theorem C2_volume_formula :
    (∀ (matrix : List (List ℚ)) (x0 x1 y0 y1 : ℚ),
      volume_under_surface matrix (x0, x1) (y0, y1) 0 false =
        (matrix.map List.sum).sum *
          cell_size x0 x1 (matrix.headD []).length *
          cell_size y0 y1 matrix.length) ∧
    volume_under_surface (List.replicate 100 (List.replicate 120 ((1 : ℚ)/2)))
      (0, 10) (0, 8) 0 false = 480000 / 11781 := by
  constructor
  · intro matrix x0 x1 y0 y1
    rw [volume_under_surface]
    have hid : matrix.map (fun row => row.map (fun v => v - 0)) = matrix := by
      simp
    norm_num [hid]
  · exact volume_demo_value

/-- Counterexample to claim C2's concrete instance: the code divides the
domain span by (count − 1), so the 0.5-constant field on the 100 by 120
grid over the 10 by 8 domain integrates to 480000/11781 ≈ 40.74, which is
more than 0.7 away from the claimed 40.0 — far outside floating-point
tolerance. -/
theorem C2_counterexample :
    volume_under_surface (List.replicate 100 (List.replicate 120 ((1 : ℚ)/2)))
      (0, 10) (0, 8) 0 false = 480000 / 11781 ∧
    (40 : ℚ) + 7/10 < 480000 / 11781 := by
  exact ⟨volume_demo_value, by norm_num⟩

/-! ## Row-major flattening and first-occurrence lemmas -/

theorem get?_indexOf_of_mem {α : Type} [DecidableEq α] (a : α) :
    ∀ (l : List α), a ∈ l → l.get? (l.indexOf a) = some a := by
  intro l
  induction l with
  | nil => intro h; exact absurd h (List.not_mem_nil a)
  | cons b bs ih =>
    intro h
    by_cases hab : b = a
    · subst hab
      rw [List.indexOf_cons_self, List.get?_cons_zero]
    · have hmem : a ∈ bs := by
        rcases List.mem_cons.mp h with h1 | h1
        · exact absurd h1.symm hab
        · exact h1
      rw [List.indexOf_cons_ne bs hab, Nat.succ_eq_add_one, List.get?_cons_succ]
      exact ih hmem

theorem get?_ne_of_lt_indexOf {α : Type} [DecidableEq α] (a : α) :
    ∀ (l : List α) (n : ℕ), n < l.indexOf a → l.get? n ≠ some a := by
  intro l
  induction l with
  | nil => intro n h; simp [List.indexOf_nil] at h
  | cons b bs ih =>
    intro n h
    by_cases hab : b = a
    · subst hab
      rw [List.indexOf_cons_self] at h
      omega
    · rw [List.indexOf_cons_ne bs hab] at h
      cases n with
      | zero =>
        rw [List.get?_cons_zero]
        intro hcon
        exact hab (Option.some_inj.mp hcon)
      | succ m =>
        rw [List.get?_cons_succ]
        exact ih m (by omega)

theorem flatten_length_rect {α : Type} (W : ℕ) :
    ∀ (matrix : List (List α)), (∀ row ∈ matrix, row.length = W) →
      matrix.flatten.length = matrix.length * W := by
  intro matrix
  induction matrix with
  | nil => intro _; simp
  | cons row rest ih =>
    intro rect
    have hrl : row.length = W := rect row (List.mem_cons_self _ _)
    have hrest := ih (fun r hr => rect r (List.mem_cons_of_mem row hr))
    rw [List.flatten_cons, List.length_append, hrl, hrest, List.length_cons]
    ring

theorem flatten_get?_eq (W : ℕ) :
    ∀ (matrix : List (List ℚ)), (∀ row ∈ matrix, row.length = W) →
      ∀ (j i : ℕ), i < W →
      matrix.flatten.get? (j * W + i) =
        (matrix.get? j).bind (fun row => row.get? i) := by
  intro matrix
  induction matrix with
  | nil => intro _ j i _; simp
  | cons row rest ih =>
    intro rect j i hi
    have hrl : row.length = W := rect row (List.mem_cons_self _ _)
    cases j with
    | zero =>
      rw [List.flatten_cons, Nat.zero_mul, Nat.zero_add,
        List.get?_append (by omega : i < row.length), List.get?_cons_zero]
      rfl
    | succ j2 =>
      have h5 : (j2 + 1) * W = j2 * W + W := by ring
      rw [List.flatten_cons,
        List.get?_append_right (by omega : row.length ≤ (j2 + 1) * W + i)]
      have harith : (j2 + 1) * W + i - row.length = j2 * W + i := by omega
      rw [harith, ih (fun r hr => rect r (List.mem_cons_of_mem row hr)) j2 i hi,
        List.get?_cons_succ]

theorem npGet2_natCast (matrix : List (List ℚ)) (W : ℕ)
    (rect : ∀ row ∈ matrix, row.length = W) (j i : ℕ)
    (hj : j < matrix.length) (hi : i < W) :
    npGet2 matrix (j : ℤ) (i : ℤ) =
      (matrix.get? j).bind (fun row => row.get? i) := by
  obtain ⟨row, hrow⟩ : ∃ row, matrix.get? j = some row := by
    rw [List.get?_eq_get hj]
    exact ⟨_, rfl⟩
  have hrmem : row ∈ matrix := List.get?_mem hrow
  have hrl : row.length = W := rect row hrmem
  rw [npGet2, npGet1_eq_get? matrix (j : ℤ) (by positivity)
    (by exact_mod_cast hj), Int.toNat_natCast, hrow]
  simp only [Option.some_bind]
  rw [npGet1_eq_get? row (i : ℤ) (by positivity) (by rw [hrl]; exact_mod_cast hi),
    Int.toNat_natCast]

theorem argfirst_spec (matrix : List (List ℚ)) (H W k : ℕ) (z : ℚ)
    (hH : matrix.length = H) (rect : ∀ row ∈ matrix, row.length = W)
    (h2 : 1 ≤ W) (hzmem : z ∈ matrix.flatten)
    (hk : k = matrix.flatten.indexOf z) :
    k / W < H ∧ k % W < W ∧
    npGet2 matrix ((k / W : ℕ) : ℤ) ((k % W : ℕ) : ℤ) = some z ∧
    (matrix.getD (k / W) []).getD (k % W) 0 = z ∧
    (∀ j2 i2 : ℕ, j2 < H → i2 < W → j2 * W + i2 < k →
      npGet2 matrix (j2 : ℤ) (i2 : ℤ) ≠ some z) := by
  have hWpos : 0 < W := by omega
  have hlen : matrix.flatten.length = H * W := by
    rw [flatten_length_rect W matrix rect, hH]
  have hklt : k < H * W := by
    rw [hk, ← hlen]
    exact List.indexOf_lt_length.mpr hzmem
  have hj : k / W < H := Nat.div_lt_of_lt_mul (by rw [Nat.mul_comm]; exact hklt)
  have hi : k % W < W := Nat.mod_lt _ hWpos
  have hksplit : k / W * W + k % W = k := by
    rw [Nat.mul_comm (k / W) W]
    exact Nat.div_add_mod k W
  have hfk : matrix.flatten.get? k = some z := by
    rw [hk]
    exact get?_indexOf_of_mem z matrix.flatten hzmem
  have hbind : (matrix.get? (k / W)).bind (fun row => row.get? (k % W)) = some z := by
    rw [← flatten_get?_eq W matrix rect (k / W) (k % W) hi, hksplit]
    exact hfk
  obtain ⟨rowm, hrowm, hcellm⟩ := Option.bind_eq_some.mp hbind
  have hget2 : npGet2 matrix ((k / W : ℕ) : ℤ) ((k % W : ℕ) : ℤ) = some z := by
    rw [npGet2_natCast matrix W rect _ _ (by rw [hH]; exact hj) hi, hrowm]
    simp only [Option.some_bind]
    exact hcellm
  have hval : (matrix.getD (k / W) []).getD (k % W) 0 = z := by
    have hrowD : matrix.getD (k / W) [] = rowm := by
      rw [List.getD_eq_getElem?_getD, ← List.get?_eq_getElem?, hrowm]
      rfl
    rw [hrowD, List.getD_eq_getElem?_getD, ← List.get?_eq_getElem?, hcellm]
    rfl
  refine ⟨hj, hi, hget2, hval, ?_⟩
  intro j2 i2 hj2 hi2 hlt hcon
  have hb2 : matrix.flatten.get? (j2 * W + i2) = some z := by
    rw [flatten_get?_eq W matrix rect j2 i2 hi2,
      ← npGet2_natCast matrix W rect j2 i2 (by rw [hH]; exact hj2) hi2]
    exact hcon
  exact get?_ne_of_lt_indexOf z matrix.flatten (j2 * W + i2)
    (by rw [← hk]; exact hlt) hb2

/-- Claim C7: find_extrema returns a minimum record below every grid
sample and a maximum record above every grid sample; each record's
physical coordinates are the linspace axis mapping applied to its grid
indices, and those indices are the first occurrence of the extreme value
in row-major scan order. -/
theorem C7_extrema_consistent (matrix : List (List ℚ)) (H W : ℕ) (x0 x1 y0 y1 : ℚ)
    (hH : matrix.length = H) (rect : ∀ row ∈ matrix, row.length = W)
    (h1 : 1 ≤ H) (h2 : 1 ≤ W) :
    ∃ zmin xm ym zmax xM yM,
      find_extrema matrix (x0, x1) (y0, y1) =
        some ((zmin, xm, ym), (zmax, xM, yM)) ∧
      (∀ v ∈ matrix.flatten, zmin ≤ v ∧ v ≤ zmax) ∧
      (∃ j i : ℕ, j < H ∧ i < W ∧
        npGet2 matrix (j : ℤ) (i : ℤ) = some zmin ∧
        xm = (linspace x0 x1 W).getD i 0 ∧ ym = (linspace y0 y1 H).getD j 0 ∧
        ∀ j2 i2 : ℕ, j2 < H → i2 < W → j2 * W + i2 < j * W + i →
          npGet2 matrix (j2 : ℤ) (i2 : ℤ) ≠ some zmin) ∧
      (∃ j i : ℕ, j < H ∧ i < W ∧
        npGet2 matrix (j : ℤ) (i : ℤ) = some zmax ∧
        xM = (linspace x0 x1 W).getD i 0 ∧ yM = (linspace y0 y1 H).getD j 0 ∧
        ∀ j2 i2 : ℕ, j2 < H → i2 < W → j2 * W + i2 < j * W + i →
          npGet2 matrix (j2 : ℤ) (i2 : ℤ) ≠ some zmax) := by
  have hWd : (matrix.headD []).length = W := headD_length_eq matrix W (by omega) rect
  have hlen : matrix.flatten.length = H * W := by
    rw [flatten_length_rect W matrix rect, hH]
  have hne : matrix.flatten ≠ [] := by
    intro hcon
    rw [hcon] at hlen
    have hpos : 0 < H * W := Nat.mul_pos (by omega) (by omega)
    simp at hlen
    omega
  have hmins := argfirst_spec matrix H W
    (matrix.flatten.indexOf (listMinD 0 matrix.flatten)) (listMinD 0 matrix.flatten)
    hH rect h2 (listMinD_mem 0 matrix.flatten hne) rfl
  have hmaxs := argfirst_spec matrix H W
    (matrix.flatten.indexOf (listMaxD 0 matrix.flatten)) (listMaxD 0 matrix.flatten)
    hH rect h2 (listMaxD_mem 0 matrix.flatten hne) rfl
  have hfe : find_extrema matrix (x0, x1) (y0, y1) =
      some ((listMinD 0 matrix.flatten,
              (linspace x0 x1 W).getD
                (matrix.flatten.indexOf (listMinD 0 matrix.flatten) % W) 0,
              (linspace y0 y1 H).getD
                (matrix.flatten.indexOf (listMinD 0 matrix.flatten) / W) 0),
            (listMaxD 0 matrix.flatten,
              (linspace x0 x1 W).getD
                (matrix.flatten.indexOf (listMaxD 0 matrix.flatten) % W) 0,
              (linspace y0 y1 H).getD
                (matrix.flatten.indexOf (listMaxD 0 matrix.flatten) / W) 0)) := by
    rw [find_extrema]
    dsimp only
    rw [if_neg hne, hWd, hH, hmins.2.2.2.1, hmaxs.2.2.2.1]
  refine ⟨listMinD 0 matrix.flatten, _, _, listMaxD 0 matrix.flatten, _, _, hfe,
    fun v hv => ⟨listMinD_le 0 matrix.flatten v hv, le_listMaxD 0 matrix.flatten v hv⟩,
    ⟨matrix.flatten.indexOf (listMinD 0 matrix.flatten) / W,
      matrix.flatten.indexOf (listMinD 0 matrix.flatten) % W,
      hmins.1, hmins.2.1, hmins.2.2.1, rfl, rfl, ?_⟩,
    ⟨matrix.flatten.indexOf (listMaxD 0 matrix.flatten) / W,
      matrix.flatten.indexOf (listMaxD 0 matrix.flatten) % W,
      hmaxs.1, hmaxs.2.1, hmaxs.2.2.1, rfl, rfl, ?_⟩⟩
  · intro j2 i2 hj2 hi2 hlt
    refine hmins.2.2.2.2 j2 i2 hj2 hi2 ?_
    have hdm := Nat.div_add_mod (matrix.flatten.indexOf (listMinD 0 matrix.flatten)) W
    rw [Nat.mul_comm (matrix.flatten.indexOf (listMinD 0 matrix.flatten) / W) W] at hlt
    omega
  · intro j2 i2 hj2 hi2 hlt
    refine hmaxs.2.2.2.2 j2 i2 hj2 hi2 ?_
    have hdm := Nat.div_add_mod (matrix.flatten.indexOf (listMaxD 0 matrix.flatten)) W
    rw [Nat.mul_comm (matrix.flatten.indexOf (listMaxD 0 matrix.flatten) / W) W] at hlt
    omega

/-- Witness for C7 at a concrete field with a tie in the minimum value:
the 2 by 2 field [[3, 1], [1, 2]] over the unit square. -/
theorem C7_witness :
    ([[(3 : ℚ), 1], [1, 2]].length = 2) ∧
    ((1 : ℕ) ≤ 2) ∧
    (∃ zmin xm ym zmax xM yM,
      find_extrema [[(3 : ℚ), 1], [1, 2]] (0, 1) (0, 1) =
        some ((zmin, xm, ym), (zmax, xM, yM)) ∧
      (∀ v ∈ [[(3 : ℚ), 1], [1, 2]].flatten, zmin ≤ v ∧ v ≤ zmax) ∧
      (∃ j i : ℕ, j < 2 ∧ i < 2 ∧
        npGet2 [[(3 : ℚ), 1], [1, 2]] (j : ℤ) (i : ℤ) = some zmin ∧
        xm = (linspace (0 : ℚ) 1 2).getD i 0 ∧
        ym = (linspace (0 : ℚ) 1 2).getD j 0 ∧
        ∀ j2 i2 : ℕ, j2 < 2 → i2 < 2 → j2 * 2 + i2 < j * 2 + i →
          npGet2 [[(3 : ℚ), 1], [1, 2]] (j2 : ℤ) (i2 : ℤ) ≠ some zmin) ∧
      (∃ j i : ℕ, j < 2 ∧ i < 2 ∧
        npGet2 [[(3 : ℚ), 1], [1, 2]] (j : ℤ) (i : ℤ) = some zmax ∧
        xM = (linspace (0 : ℚ) 1 2).getD i 0 ∧
        yM = (linspace (0 : ℚ) 1 2).getD j 0 ∧
        ∀ j2 i2 : ℕ, j2 < 2 → i2 < 2 → j2 * 2 + i2 < j * 2 + i →
          npGet2 [[(3 : ℚ), 1], [1, 2]] (j2 : ℤ) (i2 : ℤ) ≠ some zmax)) := by
  refine ⟨rfl, by norm_num, ?_⟩
  exact C7_extrema_consistent [[(3 : ℚ), 1], [1, 2]] 2 2 0 1 0 1 rfl
    (by
      intro row hrow
      have h2 : row = [3, 1] ∨ row = [1, 2] := by simpa using hrow
      rcases h2 with h | h <;> rw [h] <;> rfl)
    (by norm_num) (by norm_num)

/-! ## terrainGenerator.py: the spectral synthesizer over the reals -/

/-- Python error kinds raised inside the synthesizer pipeline. -/
inductive PyErr : Type
  | zeroDivisionError : PyErr
  | valueError : PyErr
deriving DecidableEq

/-- numpy fftfreq: the discrete Fourier sample frequencies in cycles per
sample.  The implementation first computes 1/(n·d), so a size of zero
raises ZeroDivisionError; a negative size raises ValueError when the
result array is allocated; for a positive size the result is
[0, 1, ..., (n−1)/2, −(n/2), ..., −1] divided by n. -/
noncomputable def fftfreq (n : ℤ) : Except PyErr (List ℝ) :=
  if n = 0 then Except.error PyErr.zeroDivisionError
  else if n < 0 then Except.error PyErr.valueError
  else
    Except.ok ((List.range n.toNat).map (fun (i : ℕ) =>
      if (i : ℤ) < (n - 1) / 2 + 1 then (i : ℝ) / (n : ℝ)
      else ((i : ℝ) - (n : ℝ)) / (n : ℝ)))

/-- Write one entry of a matrix stored as a list of rows. -/
def set2 (M : List (List ℝ)) (r c : ℕ) (v : ℝ) : List (List ℝ) :=
  M.set r ((M.getD r []).set c v)

/-- The inverse two-dimensional discrete Fourier transform of an H by W
complex spectrum: entry (m, n) is the double sum of the spectrum times
exp(2πi(jm/H + kn/W)) over all (j, k), divided by H·W. -/
noncomputable def ifft2 (S : List (List ℂ)) (H W : ℕ) : List (List ℂ) :=
  (List.range H).map (fun (m : ℕ) => (List.range W).map (fun (n : ℕ) =>
    ((H : ℂ) * (W : ℂ))⁻¹ *
      ((List.range H).map (fun (j : ℕ) =>
        ((List.range W).map (fun (k : ℕ) =>
          (S.getD j []).getD k 0 *
            Complex.exp (2 * Real.pi * Complex.I *
              ((j : ℂ) * (m : ℂ) / (H : ℂ) + (k : ℂ) * (n : ℂ) / (W : ℂ))))).sum)).sum))

/-- Normalization to [0, 1] exactly as the source performs it: subtract
the minimum, then divide by (maximum − minimum of the shifted field) plus
the epsilon 1e-12. -/
noncomputable def normalize01 (field : List (List ℝ)) : List (List ℝ) :=
  let mn := listMinD 0 field.flatten
  let shifted := field.map (fun row => row.map (fun v => v - mn))
  let denom := listMaxD 0 shifted.flatten - listMinD 0 shifted.flatten + 1e-12
  shifted.map (fun row => row.map (fun v => v / denom))

/-- The spatial field before normalization: frequency magnitudes from the
two fftfreq axes with the DC entry replaced by 1e-6, one random phase per
cell drawn row-major from the stream st1 and scaled to [0, 2π), the
spectrum (1/f^α)·(cos φ + i sin φ), and the real part of its inverse 2D
DFT. -/
noncomputable def spatial_field (ky kx : List ℝ) (H W : ℕ) (alpha : ℝ)
    (st1 : ℕ → ℝ) : List (List ℝ) :=
  let freq0 : List (List ℝ) := (List.range H).map (fun (j : ℕ) =>
    (List.range W).map (fun (k : ℕ) =>
      Real.sqrt ((kx.getD k 0) ^ 2 + (ky.getD j 0) ^ 2)))
  let freq := set2 freq0 0 0 (1e-6 : ℝ)
  let phase : ℕ → ℕ → ℝ := fun j k => st1 (j * W + k) * (2 * Real.pi)
  let spectrum : List (List ℂ) := (List.range H).map (fun (j : ℕ) =>
    (List.range W).map (fun (k : ℕ) =>
      (((1 : ℝ) / ((freq.getD j []).getD k 0) ^ alpha : ℝ) : ℂ) *
        ((Real.cos (phase j k) : ℂ) + Complex.I * (Real.sin (phase j k) : ℂ))))
  (ifft2 spectrum H W).map (fun row => row.map Complex.re)

/-- generate_topology: seed the process-wide generator when a seed is
given (modelled by replacing the ambient stream with the seeded stream),
build the frequency grid from fftfreq along each axis, synthesize the
spatial field and normalize it to [0, 1].  The pair returned carries the
state of the process-wide stream after the H·W phase draws; a failure in
fftfreq propagates as the corresponding Python error. -/
noncomputable def generate_topology (seedFn : ℤ → ℕ → ℝ) (Height Width : ℤ)
    (alpha : ℝ) (seed : Option ℤ) (st : ℕ → ℝ) :
    Except PyErr (List (List ℝ)) × (ℕ → ℝ) :=
  let st1 := match seed with
    | some s => seedFn s
    | none => st
  match fftfreq Height, fftfreq Width with
  | Except.ok ky, Except.ok kx =>
      (Except.ok (normalize01
        (spatial_field ky kx Height.toNat Width.toNat alpha st1)),
       fun i => st1 (i + Height.toNat * Width.toNat))
  | Except.error e, _ => (Except.error e, st1)
  | _, Except.error e => (Except.error e, st1)

theorem fftfreq_ok (n : ℤ) (h : 1 ≤ n) :
    fftfreq n = Except.ok ((List.range n.toNat).map (fun (i : ℕ) =>
      if (i : ℤ) < (n - 1) / 2 + 1 then (i : ℝ) / (n : ℝ)
      else ((i : ℝ) - (n : ℝ)) / (n : ℝ))) := by
  rw [fftfreq, if_neg (by omega), if_neg (by omega)]

theorem fftfreq_err (n : ℤ) (h : n < 1) : ∃ e, fftfreq n = Except.error e := by
  by_cases h0 : n = 0
  · exact ⟨PyErr.zeroDivisionError, by rw [fftfreq, if_pos h0]⟩
  · exact ⟨PyErr.valueError, by rw [fftfreq, if_neg h0, if_pos (by omega)]⟩

/-! ## Normalization facts -/

theorem foldl_min_map_sub : ∀ (xs : List ℝ) (x c : ℝ),
    (xs.map (fun v => v - c)).foldl min (x - c) = xs.foldl min x - c := by
  intro xs
  induction xs with
  | nil => intro x c; rfl
  | cons y ys ih =>
    intro x c
    rw [List.map_cons, List.foldl_cons, List.foldl_cons, ← ih (min x y) c]
    congr 1
    exact min_sub_sub_right x y c

theorem listMinD_map_sub (l : List ℝ) (c : ℝ) (h : l ≠ []) :
    listMinD 0 (l.map (fun v => v - c)) = listMinD 0 l - c := by
  cases l with
  | nil => exact absurd rfl h
  | cons x xs =>
    rw [List.map_cons]
    exact foldl_min_map_sub xs x c

theorem normalize01_eq (M : List (List ℝ)) :
    normalize01 M = M.map (fun row => row.map (fun v =>
      (v - listMinD 0 M.flatten) /
        (listMaxD 0 (M.flatten.map (fun w => w - listMinD 0 M.flatten)) -
         listMinD 0 (M.flatten.map (fun w => w - listMinD 0 M.flatten)) + 1e-12))) := by
  rw [normalize01]
  rw [← List.map_flatten, List.map_map]
  congr 1
  funext row
  rw [Function.comp_apply, List.map_map]
  rfl

theorem normalize01_bounds (M : List (List ℝ)) (hne : M.flatten ≠ []) :
    (∀ row ∈ normalize01 M, ∀ v ∈ row, 0 ≤ v ∧ v < 1) ∧
    (∃ row ∈ normalize01 M, ∃ v ∈ row, v = 0) := by
  have heq := normalize01_eq M
  set mn := listMinD 0 M.flatten with hmn
  set shifted := M.flatten.map (fun w => w - mn) with hsh
  set D := listMaxD 0 shifted - listMinD 0 shifted + 1e-12 with hD
  have hmnmem : mn ∈ M.flatten := listMinD_mem 0 M.flatten hne
  have h0mem : (0 : ℝ) ∈ shifted := by
    rw [hsh]
    have hz : mn - mn = 0 := sub_self mn
    exact hz ▸ List.mem_map_of_mem _ hmnmem
  have hsmin : listMinD 0 shifted = 0 := by
    rw [hsh, listMinD_map_sub M.flatten mn hne, ← hmn, sub_self]
  have hsmax0 : (0 : ℝ) ≤ listMaxD 0 shifted := le_listMaxD 0 shifted 0 h0mem
  have heps : (0 : ℝ) < 1e-12 := by norm_num
  have hDpos : 0 < D := by
    rw [hD, hsmin]
    linarith
  constructor
  · intro row hrow v hv
    rw [heq] at hrow
    obtain ⟨row0, hrow0, rfl⟩ := List.mem_map.mp hrow
    obtain ⟨u, hu, rfl⟩ := List.mem_map.mp hv
    have humem : u ∈ M.flatten := List.mem_flatten.mpr ⟨row0, hrow0, hu⟩
    have husub : u - mn ∈ shifted := by
      rw [hsh]
      exact List.mem_map_of_mem _ humem
    have h1 : 0 ≤ u - mn := by
      have := listMinD_le 0 M.flatten u humem
      rw [← hmn] at this
      linarith
    have h2 : u - mn ≤ listMaxD 0 shifted := le_listMaxD 0 shifted _ husub
    refine ⟨div_nonneg h1 hDpos.le, ?_⟩
    rw [div_lt_one hDpos, hD, hsmin]
    linarith
  · obtain ⟨row0, hrow0, hmnrow⟩ := List.mem_flatten.mp hmnmem
    rw [heq]
    exact ⟨_, List.mem_map_of_mem _ hrow0, _, List.mem_map_of_mem _ hmnrow,
      by rw [sub_self, zero_div]⟩

theorem normalize01_single (x : ℝ) : normalize01 [[x]] = [[0]] := by
  rw [normalize01_eq]
  simp [listMinD, listMaxD]

/-! ## Structure of the synthesizer output -/

theorem spatial_field_shape (ky kx : List ℝ) (H W : ℕ) (alpha : ℝ) (st1 : ℕ → ℝ) :
    (spatial_field ky kx H W alpha st1).length = H ∧
    ∀ row ∈ spatial_field ky kx H W alpha st1, row.length = W := by
  constructor
  · rw [spatial_field]
    dsimp only
    rw [ifft2]
    simp
  · intro row hrow
    rw [spatial_field] at hrow
    dsimp only at hrow
    rw [ifft2] at hrow
    simp only [List.map_map, List.mem_map] at hrow
    obtain ⟨m, hm, rfl⟩ := hrow
    simp

theorem generate_topology_ok (seedFn : ℤ → ℕ → ℝ) (Height Width : ℤ)
    (alpha : ℝ) (seed : Option ℤ) (st : ℕ → ℝ)
    (hH : 1 ≤ Height) (hW : 1 ≤ Width) :
    ∃ field : List (List ℝ), field.length = Height.toNat ∧
      (∀ row ∈ field, row.length = Width.toNat) ∧
      (generate_topology seedFn Height Width alpha seed st).1 =
        Except.ok (normalize01 field) := by
  rw [generate_topology.eq_def, fftfreq_ok Height hH, fftfreq_ok Width hW]
  dsimp only
  refine ⟨_, ?_, ?_, rfl⟩
  · exact (spatial_field_shape _ _ _ _ _ _).1
  · exact (spatial_field_shape _ _ _ _ _ _).2

/-- Claim C3 (amended): for every valid synthesis call (Height and Width
at least 1, any alpha, any seed and stream) every entry of the returned
field is in [0, 1) and the value 0 is attained; the maximum is strictly
below 1 by the 1e-12 epsilon and, on a constant pre-normalization field,
the output is identically 0 so 1 is not attained at all. -/
theorem C3_normalization_bounds (seedFn : ℤ → ℕ → ℝ) (Height Width : ℤ)
    (alpha : ℝ) (seed : Option ℤ) (st : ℕ → ℝ) (F : List (List ℝ))
    (hH : 1 ≤ Height) (hW : 1 ≤ Width)
    (hok : (generate_topology seedFn Height Width alpha seed st).1 = Except.ok F) :
    (∀ row ∈ F, ∀ v ∈ row, 0 ≤ v ∧ v < 1) ∧ (∃ row ∈ F, ∃ v ∈ row, v = 0) := by
  obtain ⟨field, hlen, hrect, heq⟩ :=
    generate_topology_ok seedFn Height Width alpha seed st hH hW
  rw [heq] at hok
  injection hok with hok2
  have hne : field.flatten ≠ [] := by
    have hl := flatten_length_rect Width.toNat field hrect
    intro hcon
    rw [hcon] at hl
    simp only [List.length_nil] at hl
    have h1 : 1 ≤ Height.toNat := by omega
    have h2 : 1 ≤ Width.toNat := by omega
    rcases Nat.mul_eq_zero.mp hl.symm with hc | hc <;> omega
  rw [← hok2]
  exact normalize01_bounds field hne

theorem gen_one_one_eval :
    (generate_topology (fun _ _ => (0 : ℝ)) 1 1 (3/2) Option.none (fun _ => 0)).1 =
      Except.ok [[(0 : ℝ)]] := by
  obtain ⟨field, hlen, hrect, heq⟩ := generate_topology_ok (fun _ _ => (0 : ℝ)) 1 1
    (3/2) Option.none (fun _ => 0) (by norm_num) (by norm_num)
  rw [heq]
  obtain ⟨x, hx⟩ : ∃ x, field = [[x]] := by
    simp only [Int.toNat_one] at hlen hrect
    cases field with
    | nil => simp at hlen
    | cons row rest =>
      cases rest with
      | cons r2 r3 => simp at hlen
      | nil =>
        have hrl : row.length = 1 := hrect row (List.mem_cons_self _ _)
        cases row with
        | nil => simp at hrl
        | cons a tail =>
          cases tail with
          | nil => exact ⟨a, rfl⟩
          | cons b t2 => simp at hrl
  rw [hx, normalize01_single]

/-- Counterexample to claim C3 as stated: the synthesis call with
Height = Width = 1 (a valid call per the claim) produces a constant
pre-normalization field, so the normalized output is [[0]] — its maximum
is 0, not 1 within any tolerance, and 1 is not attained. -/
theorem C3_counterexample :
    (generate_topology (fun _ _ => (0 : ℝ)) 1 1 (3/2) Option.none (fun _ => 0)).1 =
      Except.ok [[(0 : ℝ)]] ∧ ((0 : ℝ) < 1) := by
  exact ⟨gen_one_one_eval, by norm_num⟩

/-- Witness for the amended C3 at the concrete 1 by 1 synthesis call. -/
theorem C3_witness :
    ((1 : ℤ) ≤ 1) ∧
    ((∀ row ∈ [[(0 : ℝ)]], ∀ v ∈ row, 0 ≤ v ∧ v < 1) ∧
      (∃ row ∈ [[(0 : ℝ)]], ∃ v ∈ row, v = 0)) := by
  refine ⟨le_refl 1, ?_⟩
  exact C3_normalization_bounds (fun _ _ => (0 : ℝ)) 1 1 (3/2) Option.none
    (fun _ => 0) [[(0 : ℝ)]] (by norm_num) (by norm_num) gen_one_one_eval

/-- Claim C4 (amended): calling the synthesizer with Height < 1 or
Width < 1 does fail, but not through an explicit invalid-argument check
performed before any computation: the failure arises inside the
frequency-grid computation (ZeroDivisionError for a zero dimension,
ValueError for a negative one), after the pseudorandom generator has
already been reseeded when a seed was supplied. -/
theorem C4_invalid_dims_fail (seedFn : ℤ → ℕ → ℝ) (Height Width : ℤ)
    (alpha : ℝ) (seed : Option ℤ) (st : ℕ → ℝ)
    (h : Height < 1 ∨ Width < 1) :
    ∃ e, (generate_topology seedFn Height Width alpha seed st).1 =
      Except.error e := by
  by_cases hH : Height < 1
  · obtain ⟨e, he⟩ := fftfreq_err Height hH
    refine ⟨e, ?_⟩
    rw [generate_topology.eq_def, he]
    cases hfw : fftfreq Width with
    | ok l => rfl
    | error e2 => rfl
  · have hW : Width < 1 := h.resolve_left hH
    obtain ⟨e, he⟩ := fftfreq_err Width hW
    refine ⟨e, ?_⟩
    rw [generate_topology.eq_def, fftfreq_ok Height (by omega), he]

/-- Counterexample to claim C4 as stated: at Height = 0 the failure is a
ZeroDivisionError raised inside fftfreq, not an invalid-argument
(ValueError) rejection, and with a seed supplied the process-wide
generator is reseeded before the failure — computation has already
started when the call fails. -/
theorem C4_counterexample :
    (generate_topology (fun _ _ => (0 : ℝ)) 0 5 1 Option.none (fun _ => 0)).1 =
      Except.error PyErr.zeroDivisionError ∧
    PyErr.zeroDivisionError ≠ PyErr.valueError ∧
    (generate_topology (fun _ _ => (1 : ℝ)) 0 5 1 (Option.some 7) (fun _ => 0)).2 =
      (fun _ => (1 : ℝ)) := by
  refine ⟨?_, by intro hcon; exact PyErr.noConfusion hcon, ?_⟩
  · rw [generate_topology.eq_def, show fftfreq 0 = Except.error PyErr.zeroDivisionError from
      by rw [fftfreq, if_pos rfl]]
    rfl
  · rw [generate_topology.eq_def, show fftfreq 0 = Except.error PyErr.zeroDivisionError from
      by rw [fftfreq, if_pos rfl]]
    rfl

/-- Witness for the amended C4 at the concrete call with Height = 0. -/
theorem C4_witness :
    ((0 : ℤ) < 1 ∨ (5 : ℤ) < 1) ∧
    (∃ e, (generate_topology (fun _ _ => (0 : ℝ)) 0 5 1 Option.none
      (fun _ => 0)).1 = Except.error e) := by
  refine ⟨Or.inl (by norm_num), ?_⟩
  exact C4_invalid_dims_fail (fun _ _ => (0 : ℝ)) 0 5 1 Option.none (fun _ => 0)
    (Or.inl (by norm_num))

/-- Claim C8: with a fixed seed, fixed dimensions and alpha, and a fixed
pseudorandom stream implementation (the seed-to-stream function), the
synthesized field does not depend on the ambient generator state at all —
two successive calls therefore return bit-identical fields. -/
theorem C8_determinism (seedFn : ℤ → ℕ → ℝ) (Height Width : ℤ) (alpha : ℝ)
    (s : ℤ) (st st2 : ℕ → ℝ) :
    (generate_topology seedFn Height Width alpha (Option.some s) st).1 =
      (generate_topology seedFn Height Width alpha (Option.some s) st2).1 := rfl
